import Mathlib

/-!
Shallow embedding of `src/gamma/yieldengine/partition/_partition.py`.

Python floats are modelled as exact rationals (`ℚ`), Python ints as `ℤ`/`ℕ`,
`None`-able attributes as `Option`, and code that can raise as `Except String`.
`math.ceil(math.log10 x)` is modelled as `Int.clog 10 x`, which agrees with it
over exact arithmetic for every `x > 0`.
-/

namespace YieldEngine

/-- Python 3 `round` applied to a number: round half to even (banker's rounding),
returning an integer. -/
def pythonRound (q : ℚ) : ℤ :=
  let f := ⌊q⌋
  let r := q - (f : ℚ)
  if r < 1/2 then f
  else if 1/2 < r then f + 1
  else if f % 2 = 0 then f else f + 1

/-- Python `int(...)` applied to a float: truncation toward zero. -/
def pyTrunc (q : ℚ) : ℤ := if 0 ≤ q then ⌊q⌋ else ⌈q⌉

/-- `DEFAULT_MAX_PARTITIONS` (source line 27). -/
def DEFAULT_MAX_PARTITIONS : ℕ := 20

/-- `np.quantile(values, q)` with numpy's default linear interpolation:
sort the data, take position `q * (n - 1)`, and interpolate linearly between the
two neighbouring order statistics.  numpy rejects an empty input sequence
(`IndexError`), modelled as `Except.error`. -/
def npQuantile (values : List ℚ) (q : ℚ) : Except String ℚ :=
  let sorted := values.insertionSort (· ≤ ·)
  if sorted.isEmpty then
    Except.error "cannot compute a quantile of an empty sequence"
  else
    let n := sorted.length
    let pos := q * ((n : ℚ) - 1)
    let i : ℕ := ⌊pos⌋.toNat
    let frac := pos - (⌊pos⌋ : ℚ)
    let lo := sorted.getD (min i (n - 1)) 0
    let hi := sorted.getD (min (i + 1) (n - 1)) 0
    Except.ok (lo + frac * (hi - lo))

/-- State of a `RangePartitioner` (source lines 118-142): configuration plus the
fitted attributes, which are `None` until `fit` has run. -/
structure RangePartitioner where
  max_partitions : ℕ
  lower_bound : Option ℚ
  upper_bound : Option ℚ
  step : Option ℚ
  first_partition : Option ℚ
  last_partition : Option ℚ
  n_partitions : Option ℤ
  frequencies : Option (List ℕ)

/-- `Partitioner.__init__` combined with `RangePartitioner.__init__`
(source lines 39-45 and 118-142): default `max_partitions` to 20, reject an
explicit `max_partitions < 2`, and reject explicit bounds with
`lower_bound >= upper_bound`. -/
def mkRangePartitioner (max_partitions : Option ℕ) (lower_bound upper_bound : Option ℚ) :
    Except String RangePartitioner :=
  let checkBounds : ℕ → Except String RangePartitioner := fun mp =>
    match lower_bound, upper_bound with
    | some lb, some ub =>
        if ub ≤ lb then Except.error "arg lower_bound >= arg upper_bound"
        else Except.ok ⟨mp, lower_bound, upper_bound, none, none, none, none, none⟩
    | _, _ => Except.ok ⟨mp, lower_bound, upper_bound, none, none, none, none, none⟩
  match max_partitions with
  | none => checkBounds DEFAULT_MAX_PARTITIONS
  | some m => if m < 2 then Except.error "arg max_partitions must be at least 2" else checkBounds m

/-- Resolution of the effective lower bound in `RangePartitioner.fit`
(source lines 175, 178-179): the configured bound if set, else the 2.5th
percentile of the values. -/
def resolveLower (cfg_lower : Option ℚ) (values : List ℚ) : Except String ℚ :=
  match cfg_lower with
  | some v => Except.ok v
  | none => npQuantile values (1/40)

/-- Resolution of both effective bounds in `RangePartitioner.fit`
(source lines 175-186).  With no configured upper bound, the 97.5th percentile
is used and collapsed up to the lower bound if smaller; with a configured upper
bound smaller than the resolved lower bound, the lower bound is collapsed down
to it instead. -/
def resolveBounds (cfg_lower cfg_upper : Option ℚ) (values : List ℚ) :
    Except String (ℚ × ℚ) :=
  match resolveLower cfg_lower values with
  | Except.error e => Except.error e
  | Except.ok lb =>
    match cfg_upper with
    | none =>
        match npQuantile values (39/40) with
        | Except.error e => Except.error e
        | Except.ok u => if u < lb then Except.ok (lb, lb) else Except.ok (lb, u)
    | some v => if v < lb then Except.ok (v, v) else Except.ok (lb, v)

/-- One candidate `10 ** math.ceil(math.log10(step * m)) / m` of
`RangePartitioner._ceil_step` (source line 280), over exact rationals. -/
def csCand (s m : ℚ) : ℚ := (10 : ℚ) ^ Int.clog 10 (s * m) / m

/-- The value `min(10 ** math.ceil(math.log10(step * m)) / m for m in [1, 2, 5])`
(source line 280). -/
def csVal (s : ℚ) : ℚ := min (csCand s 1) (min (csCand s 2) (csCand s 5))

/-- `RangePartitioner._ceil_step` (source lines 268-280): reject a non-positive
step, else round it up to the series `(..., 0.1, 0.2, 0.5, 1, 2, 5, 10, ...)`. -/
def ceil_step (step : ℚ) : Except String ℚ :=
  if step ≤ 0 then Except.error "arg step must be positive" else Except.ok (csVal step)

/-- `ContinuousRangePartitioner._step_size` (source lines 337-340). -/
def continuousStepSize (max_partitions : ℕ) (lower_bound upper_bound : ℚ) :
    Except String ℚ :=
  ceil_step ((upper_bound - lower_bound) / ((max_partitions : ℚ) - 1))

/-- `IntegerRangePartitioner._step_size` (source lines 383-392): truncate the
rounded step to an integer and floor it at 1. -/
def integerStepSize (max_partitions : ℕ) (lower_bound upper_bound : ℚ) :
    Except String ℚ :=
  match ceil_step ((upper_bound - lower_bound) / ((max_partitions : ℚ) - 1)) with
  | Except.error e => Except.error e
  | Except.ok s => Except.ok (max 1 ((pyTrunc s : ℤ) : ℚ))

/-- The computation of `RangePartitioner.fit` once the effective bounds and the
step size are known (source lines 190-215): align the first and last partition
centres to multiples of the step, derive the partition count, and count the
values into buckets.  The bucket index is
`int(round(value - first_partition) / step)` exactly as on source line 205: the
rounding is applied to the numerator alone and the quotient is then truncated. -/
def RangePartitioner.applyFit (self : RangePartitioner) (values : List ℚ) (lb ub s : ℚ) :
    RangePartitioner :=
  let first : ℚ := (⌊(lb + s / 2) / s⌋ : ℚ) * s
  let last : ℚ := (⌈(ub - s / 2) / s⌉ : ℚ) * s
  let n : ℤ := pythonRound ((last - first) / s) + 1
  let idxs : List ℤ := values.map (fun v => pyTrunc ((pythonRound (v - first) : ℚ) / s))
  let freqs : List ℕ := idxs.foldl
    (fun freqs idx =>
      if 0 ≤ idx ∧ idx < n then freqs.set idx.toNat (freqs.getD idx.toNat 0 + 1) else freqs)
    (List.replicate n.toNat 0)
  { self with
    step := some s
    first_partition := some first
    last_partition := some last
    n_partitions := some n
    frequencies := some freqs }

/-- `RangePartitioner.fit` (source lines 163-215), abstract over the variant's
`_step_size`.  The fit-time `lower_bound`/`upper_bound` parameters are accepted
but immediately overwritten by the configured bounds (source lines 175-176), so
they never influence the result. -/
def RangePartitioner.fitWith (stepSize : ℕ → ℚ → ℚ → Except String ℚ)
    (self : RangePartitioner) (values : List ℚ) (fit_lower fit_upper : Option ℚ) :
    Except String RangePartitioner :=
  match resolveBounds self.lower_bound self.upper_bound values with
  | Except.error e => Except.error e
  | Except.ok (lb, ub) =>
    match stepSize self.max_partitions lb ub with
    | Except.error e => Except.error e
    | Except.ok s => Except.ok (self.applyFit values lb ub s)

/-- `ContinuousRangePartitioner.fit`: `RangePartitioner.fit` with the
continuous step-size policy. -/
def contFit (p : RangePartitioner) (values : List ℚ) (fit_lower fit_upper : Option ℚ) :
    Except String RangePartitioner :=
  p.fitWith continuousStepSize values fit_lower fit_upper

/-- `IntegerRangePartitioner.fit`: `RangePartitioner.fit` with the integer
step-size policy. -/
def intFit (p : RangePartitioner) (values : List ℚ) (fit_lower fit_upper : Option ℚ) :
    Except String RangePartitioner :=
  p.fitWith integerStepSize values fit_lower fit_upper

/-- `RangePartitioner.is_fitted` (source lines 219-221). -/
def RangePartitioner.is_fitted (p : RangePartitioner) : Bool := p.frequencies.isSome

/-- `RangePartitioner.partitions` (source lines 223-231):
`[offset + idx * step for idx in range(n_partitions)]`.  Accessing it on an
unfitted instance is a `TypeError` in Python, modelled by `Option`. -/
def RangePartitioner.partitionsList (p : RangePartitioner) : Option (List ℚ) :=
  match p.n_partitions, p.first_partition, p.step with
  | some n, some offset, some s =>
      some (List.map (fun idx : ℕ => offset + (idx : ℚ) * s) (List.range n.toNat))
  | _, _, _ => none

/-- `RangePartitioner.__len__` (source lines 294-295). -/
def RangePartitioner.length (p : RangePartitioner) : Option ℤ := p.n_partitions

/-- State of a `CategoryPartitioner` (source lines 409-413). -/
structure CategoryPartitioner (α : Type) where
  max_partitions : ℕ
  partitions : Option (List α)
  frequencies : Option (List ℕ)

/-- `CategoryPartitioner.__init__` (source lines 409-413); the
`max_partitions < 2` check is inherited from `Partitioner.__init__`. -/
def mkCategoryPartitioner (α : Type) (max_partitions : ℕ) :
    Except String (CategoryPartitioner α) :=
  if max_partitions < 2 then Except.error "arg max_partitions must be at least 2"
  else Except.ok ⟨max_partitions, none, none⟩

/-- Ordering of value/count pairs by descending count, as used by
`pd.Series.value_counts`. -/
def countGE {α : Type} (p q : α × ℕ) : Prop := q.2 ≤ p.2

instance {α : Type} : IsTotal (α × ℕ) countGE :=
  ⟨fun p q => show q.2 ≤ p.2 ∨ p.2 ≤ q.2 from Nat.le_total q.2 p.2⟩

instance {α : Type} : IsTrans (α × ℕ) countGE :=
  ⟨fun _ _ _ h h' => Nat.le_trans h' h⟩

instance {α : Type} : DecidableRel (countGE (α := α)) :=
  fun p q => decidable_of_iff (q.2 ≤ p.2) Iff.rfl

/-- `pd.Series(values).value_counts(ascending=False)` (source line 422): the
occurrence count of each distinct value, sorted by descending count.  The order
among equal counts is implementation-defined in pandas; the embedding uses a
stable sort of the distinct values. -/
def valueCounts {α : Type} [DecidableEq α] (values : List α) : List (α × ℕ) :=
  (values.dedup.map (fun v => (v, values.count v))).insertionSort countGE

/-- `CategoryPartitioner.fit` (source lines 416-427): keep the `max_partitions`
most frequent values and their counts. -/
def CategoryPartitioner.fit {α : Type} [DecidableEq α] (self : CategoryPartitioner α)
    (values : List α) : CategoryPartitioner α :=
  let vc := valueCounts values
  { self with
    partitions := some ((vc.map Prod.fst).take self.max_partitions),
    frequencies := some ((vc.map Prod.snd).take self.max_partitions) }

/-- `CategoryPartitioner.is_fitted` (source lines 429-431). -/
def CategoryPartitioner.is_fitted {α : Type} (p : CategoryPartitioner α) : Bool :=
  p.frequencies.isSome

/-- `CategoryPartitioner.__len__` (source lines 455-456). -/
def CategoryPartitioner.length {α : Type} (p : CategoryPartitioner α) : ℕ :=
  (p.partitions.getD []).length

/-! ### Basic helper lemmas -/

theorem exceptBind_ok {ε α β : Type} (a : α) (f : α → Except ε β) :
    (Except.ok a >>= f : Except ε β) = f a := rfl

/-- Bridge to Mathlib: over `ℚ`, `r ≤ 10 ^ x ↔ ⌈log₁₀ r⌉ ≤ x` for positive `r`. -/
theorem rat_le_zpow_iff_clog_le (r : ℚ) (hr : 0 < r) (x : ℤ) :
    r ≤ (10 : ℚ) ^ x ↔ Int.clog 10 r ≤ x := by
  have h := Int.le_zpow_iff_clog_le (b := 10) (R := ℚ) (by norm_num) hr (x := x)
  simpa using h

theorem rat_self_le_zpow_clog (r : ℚ) : r ≤ (10 : ℚ) ^ Int.clog 10 r := by
  have h := Int.self_le_zpow_clog (b := 10) (R := ℚ) (by norm_num) r
  simpa using h

/-- Evaluation rule for `Int.clog 10` on rationals. -/
theorem clog10_eq_of (q : ℚ) (k : ℤ) (h1 : q ≤ (10 : ℚ) ^ k) (h2 : (10 : ℚ) ^ (k - 1) < q) :
    Int.clog 10 q = k := by
  have hq : (0 : ℚ) < q := lt_trans (zpow_pos (by norm_num) _) h2
  have hle : Int.clog 10 q ≤ k := (rat_le_zpow_iff_clog_le q hq k).mp h1
  have hgt : ¬ Int.clog 10 q ≤ k - 1 := fun hc =>
    absurd ((rat_le_zpow_iff_clog_le q hq (k - 1)).mpr hc) (not_le.mpr h2)
  omega

theorem pythonRound_intCast (z : ℤ) : pythonRound (z : ℚ) = z := by
  rw [pythonRound]
  norm_num

/-! ### Lemmas about the step-rounding helper `_ceil_step` -/

theorem le_csCand (s m : ℚ) (hm : 0 < m) : s ≤ csCand s m := by
  rw [csCand, le_div_iff₀ hm]
  exact rat_self_le_zpow_clog (s * m)

theorem le_csVal (s : ℚ) : s ≤ csVal s := by
  rw [csVal]
  exact le_min (le_csCand s 1 one_pos)
    (le_min (le_csCand s 2 (by norm_num)) (le_csCand s 5 (by norm_num)))

theorem csVal_pos (s : ℚ) (hs : 0 < s) : 0 < csVal s := lt_of_lt_of_le hs (le_csVal s)

/-- The canonical series `{d * 10 ^ k : d ∈ {1, 2, 5}, k ∈ ℤ}` of human-readable
step sizes. -/
def niceSeries : Set ℚ :=
  {x : ℚ | ∃ d : ℚ, (d = 1 ∨ d = 2 ∨ d = 5) ∧ ∃ k : ℤ, x = d * (10 : ℚ) ^ k}

theorem csCand_one_mem (s : ℚ) : csCand s 1 ∈ niceSeries := by
  refine ⟨1, Or.inl rfl, Int.clog 10 (s * 1), ?_⟩
  rw [csCand]
  ring

theorem csCand_two_mem (s : ℚ) : csCand s 2 ∈ niceSeries := by
  refine ⟨5, Or.inr (Or.inr rfl), Int.clog 10 (s * 2) - 1, ?_⟩
  rw [csCand, zpow_sub_one₀ (by norm_num : (10 : ℚ) ≠ 0)]
  ring

theorem csCand_five_mem (s : ℚ) : csCand s 5 ∈ niceSeries := by
  refine ⟨2, Or.inr (Or.inl rfl), Int.clog 10 (s * 5) - 1, ?_⟩
  rw [csCand, zpow_sub_one₀ (by norm_num : (10 : ℚ) ≠ 0)]
  ring

theorem csVal_mem (s : ℚ) : csVal s ∈ niceSeries := by
  rw [csVal]
  rcases min_cases (csCand s 1) (min (csCand s 2) (csCand s 5)) with h | h
  · rw [h.1]; exact csCand_one_mem s
  · rw [h.1]
    rcases min_cases (csCand s 2) (csCand s 5) with h' | h'
    · rw [h'.1]; exact csCand_two_mem s
    · rw [h'.1]; exact csCand_five_mem s

/-- Minimality half of the `_ceil_step` specification: the returned value is at
most any element of the canonical series that is at least `s`. -/
theorem csVal_le_of_mem (s x : ℚ) (hs : 0 < s) (hx : x ∈ niceSeries) (hsx : s ≤ x) :
    csVal s ≤ x := by
  obtain ⟨d, hd, k, rfl⟩ := hx
  rcases hd with rfl | rfl | rfl
  · -- x = 1 * 10 ^ k : compare against the m = 1 candidate
    have h1 : s * 1 ≤ (10 : ℚ) ^ k := by linarith [hsx]
    have hc : Int.clog 10 (s * 1) ≤ k :=
      (rat_le_zpow_iff_clog_le (s * 1) (by linarith) k).mp h1
    have : csCand s 1 ≤ 1 * (10 : ℚ) ^ k := by
      rw [csCand, div_one, one_mul]
      exact zpow_le_zpow_right₀ (by norm_num) hc
    exact le_trans (min_le_left _ _) this
  · -- x = 2 * 10 ^ k : compare against the m = 5 candidate
    have h1 : s * 5 ≤ (10 : ℚ) ^ (k + 1) := by
      rw [zpow_add_one₀ (by norm_num : (10 : ℚ) ≠ 0)]
      nlinarith [hsx]
    have hc : Int.clog 10 (s * 5) ≤ k + 1 :=
      (rat_le_zpow_iff_clog_le (s * 5) (by linarith) (k + 1)).mp h1
    have : csCand s 5 ≤ 2 * (10 : ℚ) ^ k := by
      rw [csCand]
      have h2 : (10 : ℚ) ^ Int.clog 10 (s * 5) ≤ (10 : ℚ) ^ (k + 1) :=
        zpow_le_zpow_right₀ (by norm_num) hc
      rw [zpow_add_one₀ (by norm_num : (10 : ℚ) ≠ 0)] at h2
      rw [div_le_iff₀ (by norm_num : (0 : ℚ) < 5)]
      nlinarith [h2]
    exact le_trans (min_le_right _ _) (le_trans (min_le_right _ _) this)
  · -- x = 5 * 10 ^ k : compare against the m = 2 candidate
    have h1 : s * 2 ≤ (10 : ℚ) ^ (k + 1) := by
      rw [zpow_add_one₀ (by norm_num : (10 : ℚ) ≠ 0)]
      nlinarith [hsx]
    have hc : Int.clog 10 (s * 2) ≤ k + 1 :=
      (rat_le_zpow_iff_clog_le (s * 2) (by linarith) (k + 1)).mp h1
    have : csCand s 2 ≤ 5 * (10 : ℚ) ^ k := by
      rw [csCand]
      have h2 : (10 : ℚ) ^ Int.clog 10 (s * 2) ≤ (10 : ℚ) ^ (k + 1) :=
        zpow_le_zpow_right₀ (by norm_num) hc
      rw [zpow_add_one₀ (by norm_num : (10 : ℚ) ≠ 0)] at h2
      rw [div_le_iff₀ (by norm_num : (0 : ℚ) < 2)]
      nlinarith [h2]
    exact le_trans (min_le_right _ _) (le_trans (min_le_left _ _) this)

/-! ### Concrete evaluations of the step rounding -/

theorem csVal_one : csVal 1 = 1 := by
  have h1 : Int.clog 10 ((1 : ℚ) * 1) = 0 := clog10_eq_of _ 0 (by norm_num) (by norm_num)
  have h2 : Int.clog 10 ((1 : ℚ) * 2) = 1 := clog10_eq_of _ 1 (by norm_num) (by norm_num)
  have h5 : Int.clog 10 ((1 : ℚ) * 5) = 1 := clog10_eq_of _ 1 (by norm_num) (by norm_num)
  rw [csVal, csCand, csCand, csCand, h1, h2, h5]
  norm_num [min_def]

theorem csVal_five : csVal 5 = 5 := by
  have h1 : Int.clog 10 ((5 : ℚ) * 1) = 1 := clog10_eq_of _ 1 (by norm_num) (by norm_num)
  have h2 : Int.clog 10 ((5 : ℚ) * 2) = 1 := clog10_eq_of _ 1 (by norm_num) (by norm_num)
  have h5 : Int.clog 10 ((5 : ℚ) * 5) = 2 := clog10_eq_of _ 2 (by norm_num) (by norm_num)
  rw [csVal, csCand, csCand, csCand, h1, h2, h5]
  norm_num [min_def]

theorem csVal_100_19 : csVal (100 / 19) = 10 := by
  have h1 : Int.clog 10 ((100 : ℚ) / 19 * 1) = 1 := clog10_eq_of _ 1 (by norm_num) (by norm_num)
  have h2 : Int.clog 10 ((100 : ℚ) / 19 * 2) = 2 := clog10_eq_of _ 2 (by norm_num) (by norm_num)
  have h5 : Int.clog 10 ((100 : ℚ) / 19 * 5) = 2 := clog10_eq_of _ 2 (by norm_num) (by norm_num)
  rw [csVal, csCand, csCand, csCand, h1, h2, h5]
  norm_num [min_def]

theorem csVal_9_19 : csVal (9 / 19) = 1 / 2 := by
  have h1 : Int.clog 10 ((9 : ℚ) / 19 * 1) = 0 := clog10_eq_of _ 0 (by norm_num) (by norm_num)
  have h2 : Int.clog 10 ((9 : ℚ) / 19 * 2) = 0 := clog10_eq_of _ 0 (by norm_num) (by norm_num)
  have h5 : Int.clog 10 ((9 : ℚ) / 19 * 5) = 1 := clog10_eq_of _ 1 (by norm_num) (by norm_num)
  rw [csVal, csCand, csCand, csCand, h1, h2, h5]
  norm_num [min_def]

theorem ceil_step_one : ceil_step 1 = Except.ok 1 := by
  rw [ceil_step, if_neg (by norm_num), csVal_one]

theorem contStep_0_100 : continuousStepSize 20 0 100 = Except.ok 10 := by
  have h : ((100 : ℚ) - 0) / (((20 : ℕ) : ℚ) - 1) = 100 / 19 := by norm_num
  rw [continuousStepSize, h, ceil_step, if_neg (by norm_num), csVal_100_19]

theorem contStep_inferred : continuousStepSize 20 (5 / 2) (195 / 2) = Except.ok 5 := by
  have h : ((195 : ℚ) / 2 - 5 / 2) / (((20 : ℕ) : ℚ) - 1) = 5 := by norm_num
  rw [continuousStepSize, h, ceil_step, if_neg (by norm_num), csVal_five]

theorem intStep_0_9 : integerStepSize 20 0 9 = Except.ok 1 := by
  have h : ((9 : ℚ) - 0) / (((20 : ℕ) : ℚ) - 1) = 9 / 19 := by norm_num
  have hcs : ceil_step ((9 : ℚ) / 19) = Except.ok (1 / 2) := by
    rw [ceil_step, if_neg (by norm_num), csVal_9_19]
  rw [integerStepSize, h, hcs]
  norm_num [pyTrunc]

/-! ### Claim C3 -/

/-- C3: for every positive candidate step `s`, the step-size rounding helper
`_ceil_step` returns the smallest element of the series
`{d * 10 ^ k : d ∈ {1, 2, 5}, k ∈ ℤ}` that is greater than or equal to `s`. -/
theorem c3_ceil_step_least (s r : ℚ) (hs : 0 < s) (hr : ceil_step s = Except.ok r) :
    r ∈ niceSeries ∧ s ≤ r ∧ ∀ x ∈ niceSeries, s ≤ x → r ≤ x := by
  rw [ceil_step, if_neg (not_le.mpr hs)] at hr
  injection hr with hr
  subst hr
  exact ⟨csVal_mem s, le_csVal s, fun x hx hsx => csVal_le_of_mem s x hs hx hsx⟩

/-- Witness for C3 at the concrete positive step `s = 1`, where `_ceil_step`
returns `1`. -/
theorem c3_ceil_step_least_witness :
    (0 : ℚ) < 1 ∧ ceil_step 1 = Except.ok 1 ∧
      ((1 : ℚ) ∈ niceSeries ∧ (1 : ℚ) ≤ 1 ∧
        ∀ x ∈ niceSeries, (1 : ℚ) ≤ x → (1 : ℚ) ≤ x) :=
  ⟨one_pos, ceil_step_one, c3_ceil_step_least 1 1 one_pos ceil_step_one⟩

/-! ### Claim C6 -/

/-- C6: during bound resolution in `RangePartitioner.fit`, an inferred upper
bound smaller than the resolved lower bound is collapsed up to the lower bound,
while an explicit upper bound smaller than the resolved lower bound collapses
the lower bound down to it instead. -/
theorem c6_bound_collapse :
    (∀ (cfg_lower : Option ℚ) (values : List ℚ) (lb ub u : ℚ),
        npQuantile values (39/40) = Except.ok u →
        resolveBounds cfg_lower none values = Except.ok (lb, ub) →
        u < lb → ub = lb)
    ∧ (∀ (cfg_lower : Option ℚ) (values : List ℚ) (l v : ℚ),
        resolveLower cfg_lower values = Except.ok l → v < l →
        resolveBounds cfg_lower (some v) values = Except.ok (v, v)) := by
  constructor
  · intro cfg_lower values lb ub u hq hres hlt
    rw [resolveBounds] at hres
    cases hl : resolveLower cfg_lower values with
    | error e => rw [hl] at hres; exact absurd hres (by simp)
    | ok l =>
      rw [hl, hq] at hres
      dsimp only at hres
      by_cases hc : u < l
      · rw [if_pos hc] at hres
        simp only [Except.ok.injEq, Prod.mk.injEq] at hres
        rw [← hres.2]
        exact hres.1
      · rw [if_neg hc] at hres
        simp only [Except.ok.injEq, Prod.mk.injEq] at hres
        exact absurd (show u < l by rw [hres.1]; exact hlt) hc
  · intro cfg_lower values l v hl hlt
    rw [resolveBounds, hl]
    dsimp only
    rw [if_pos hlt]

/-! ### Concrete quantile and bound-resolution evaluations -/

theorem npq_01 : npQuantile [0, 1] (39/40) = Except.ok (39/40) := by
  norm_num [npQuantile, List.insertionSort, List.orderedInsert, List.getD]

theorem rb_01 : resolveBounds (some 5) none [0, 1] = Except.ok (5, 5) := by
  rw [resolveBounds, show resolveLower (some 5) [0, 1] = Except.ok 5 from rfl, npq_01]
  dsimp only
  rw [if_pos (by norm_num)]

theorem rl_1020 : resolveLower none [10, 20] = Except.ok (41/4) := by
  rw [resolveLower]
  norm_num [npQuantile, List.insertionSort, List.orderedInsert, List.getD]

theorem lt_39_40_5 : (39/40 : ℚ) < 5 := by norm_num

theorem lt_3_41_4 : (3 : ℚ) < 41/4 := by norm_num

/-- Witness for C6: both collapse branches exercised on concrete inputs.  With a
configured lower bound of `5` and values `[0, 1]`, the inferred upper bound
`39/40` collapses up to `5`; with no configured lower bound, values `[10, 20]`
(inferred lower bound `41/4`), and explicit upper bound `3`, both bounds
collapse down to `3`. -/
theorem c6_bound_collapse_witness :
    (npQuantile [0, 1] (39/40) = Except.ok (39/40) ∧
      resolveBounds (some 5) none [0, 1] = Except.ok (5, 5) ∧
      (39/40 : ℚ) < 5 ∧ (5 : ℚ) = 5)
    ∧ (resolveLower none [10, 20] = Except.ok (41/4) ∧ (3 : ℚ) < 41/4 ∧
      resolveBounds none (some 3) [10, 20] = Except.ok (3, 3)) :=
  ⟨⟨npq_01, rb_01, lt_39_40_5,
      c6_bound_collapse.1 (some 5) [0, 1] 5 5 (39/40) npq_01 rb_01 lt_39_40_5⟩,
    ⟨rl_1020, lt_3_41_4,
      c6_bound_collapse.2 none [10, 20] (41/4) 3 rl_1020 lt_3_41_4⟩⟩

/-! ### Claim C5 -/

/-- Whether an `Except` computation succeeded. -/
def exceptSucceeds {ε α : Type} : Except ε α → Bool
  | Except.ok _ => true
  | Except.error _ => false

/-- An unbounded partitioner with the default `max_partitions = 20`, as built by
`ContinuousRangePartitioner()` / `IntegerRangePartitioner()`. -/
def noBoundsP : RangePartitioner := ⟨20, none, none, none, none, none, none, none⟩

/-- Counterexample to C5 as stated: fitting an unbounded numeric range
partitioner on an empty input does not succeed. -/
theorem c5_counterexample :
    exceptSucceeds (contFit noBoundsP [] none none) = false ∧
      exceptSucceeds (intFit noBoundsP [] none none) = false := by
  constructor <;> rfl

/-- C5 amended: fitting a numeric range partitioner with no explicit bounds on
an empty input sequence fails with an error (the quantile of an empty sequence
is undefined) rather than succeeding. -/
theorem c5_empty_raises :
    contFit noBoundsP [] none none =
      Except.error "cannot compute a quantile of an empty sequence" ∧
    intFit noBoundsP [] none none =
      Except.error "cannot compute a quantile of an empty sequence" := by
  constructor <;> rfl

/-! ### Evaluation scaffolding for `fit` on concrete inputs -/

theorem applyFit_eval (p : RangePartitioner) (values : List ℚ) (lb ub s first last : ℚ)
    (n : ℤ) (idxs : List ℤ) (freqs : List ℕ)
    (hf : (⌊(lb + s / 2) / s⌋ : ℚ) * s = first)
    (hl : (⌈(ub - s / 2) / s⌉ : ℚ) * s = last)
    (hn : pythonRound ((last - first) / s) + 1 = n)
    (hi : values.map (fun v => pyTrunc ((pythonRound (v - first) : ℚ) / s)) = idxs)
    (hfr : idxs.foldl
        (fun freqs idx =>
          if 0 ≤ idx ∧ idx < n then freqs.set idx.toNat (freqs.getD idx.toNat 0 + 1) else freqs)
        (List.replicate n.toNat 0) = freqs) :
    p.applyFit values lb ub s =
      { p with
        step := some s
        first_partition := some first
        last_partition := some last
        n_partitions := some n
        frequencies := some freqs } := by
  simp only [RangePartitioner.applyFit]
  rw [hf, hl, hn, hi, hfr]

/-- The partitioner `ContinuousRangePartitioner(max_partitions=20, lower_bound=0,
upper_bound=100)` before fitting (also reused for the integer variant). -/
def boundedP : RangePartitioner := ⟨20, some 0, some 100, none, none, none, none, none⟩

theorem boundedP_resolve (values : List ℚ) :
    resolveBounds (some 0) (some 100) values = Except.ok (0, 100) := by
  rw [resolveBounds, show resolveLower (some 0) values = Except.ok 0 from rfl]
  dsimp only
  rw [if_neg (by norm_num)]

/-- Full evaluation of `ContinuousRangePartitioner(20, 0, 100).fit([0, 50, 100])`. -/
theorem contFit_bounded_eval :
    contFit boundedP [0, 50, 100] none none =
      Except.ok
        ⟨20, some 0, some 100, some 10, some 0, some 100, some 11,
          some [1, 0, 0, 0, 0, 1, 0, 0, 0, 0, 1]⟩ := by
  rw [contFit, RangePartitioner.fitWith,
    show boundedP.lower_bound = some 0 from rfl,
    show boundedP.upper_bound = some 100 from rfl,
    boundedP_resolve]
  dsimp only
  rw [show boundedP.max_partitions = 20 from rfl, contStep_0_100]
  dsimp only
  rw [applyFit_eval boundedP [0, 50, 100] 0 100 10 0 100 11 [0, 5, 10]
    [1, 0, 0, 0, 0, 1, 0, 0, 0, 0, 1]
    (by norm_num)
    (by rw [show ((100 : ℚ) - 10/2)/10 = 19/2 by norm_num,
          show ⌈(19 : ℚ)/2⌉ = 10 by norm_num [Int.ceil_eq_iff]]
        norm_num)
    (by norm_num [pythonRound])
    (by norm_num [pythonRound, pyTrunc])
    (by decide)]
  rfl

/-! ### Claim C1 -/

/-- C1: the code's bucket index is `int(round(value - first_partition) / step)`
(source line 205), not `round((value - first_partition) / step)` as the spec
states.  Fitting `ContinuousRangePartitioner(20, 0, 100)` on the single value
`6` (step 10, first partition centre 0) counts the value in bucket 0, although
the spec's formula assigns bucket index `round(6 / 10) = 1` — bucket 1 is the
partition whose interval `[5, 15)` actually contains the value. -/
theorem c1_bucket_misassignment :
    contFit boundedP [6] none none =
      Except.ok
        ⟨20, some 0, some 100, some 10, some 0, some 100, some 11,
          some [1, 0, 0, 0, 0, 0, 0, 0, 0, 0, 0]⟩ ∧
    pythonRound (((6 : ℚ) - 0) / 10) = 1 := by
  constructor
  · rw [contFit, RangePartitioner.fitWith,
      show boundedP.lower_bound = some 0 from rfl,
      show boundedP.upper_bound = some 100 from rfl,
      boundedP_resolve]
    dsimp only
    rw [show boundedP.max_partitions = 20 from rfl, contStep_0_100]
    dsimp only
    rw [applyFit_eval boundedP [6] 0 100 10 0 100 11 [0]
      [1, 0, 0, 0, 0, 0, 0, 0, 0, 0, 0]
      (by norm_num)
      (by rw [show ((100 : ℚ) - 10/2)/10 = 19/2 by norm_num,
            show ⌈(19 : ℚ)/2⌉ = 10 by norm_num [Int.ceil_eq_iff]]
          norm_num)
      (by norm_num [pythonRound])
      (by norm_num [pythonRound, pyTrunc])
      (by decide)]
    rfl
  · norm_num [pythonRound]

/-! ### Claim C2 -/

theorem rb_0_100_inferred : resolveBounds none none [0, 100] = Except.ok (5/2, 195/2) := by
  have hlow : resolveLower none [0, 100] = Except.ok (5/2) := by
    rw [resolveLower]
    norm_num [npQuantile, List.insertionSort, List.orderedInsert, List.getD]
  have hup : npQuantile [0, 100] (39/40) = Except.ok (195/2) := by
    norm_num [npQuantile, List.insertionSort, List.orderedInsert, List.getD]
  rw [resolveBounds, hlow]
  dsimp only
  rw [hup]
  dsimp only
  rw [if_neg (by norm_num)]

/-- C2: the fit-time `lower_bound`/`upper_bound` arguments of
`RangePartitioner.fit` are dead — they are overwritten by the configured bounds
on source lines 175-176 before being read.  Fitting an unbounded partitioner on
`[0, 100]` while passing explicit fit-time bounds `(0, 10)` therefore still uses
the percentile-inferred bounds `(2.5, 97.5)` and yields step 5, where honouring
the fit-time bounds `(0, 10)` would give step 1. -/
theorem c2_fit_time_bounds_ignored :
    (∀ a b : Option ℚ,
      contFit noBoundsP [0, 100] a b = contFit noBoundsP [0, 100] none none) ∧
    contFit noBoundsP [0, 100] (some 0) (some 10) =
      Except.ok ⟨20, none, none, some 5, some 5, some 95, some 19,
        some (List.replicate 19 0)⟩ := by
  constructor
  · intro a b
    rfl
  · rw [contFit, RangePartitioner.fitWith,
      show noBoundsP.lower_bound = none from rfl,
      show noBoundsP.upper_bound = none from rfl,
      rb_0_100_inferred]
    dsimp only
    rw [show noBoundsP.max_partitions = 20 from rfl, contStep_inferred]
    dsimp only
    rw [applyFit_eval noBoundsP [0, 100] (5/2) (195/2) 5 5 95 19 [-1, 19]
      (List.replicate 19 0)
      (by norm_num)
      (by rw [show ((195 : ℚ)/2 - 5/2)/5 = 19 by norm_num,
            show ⌈(19 : ℚ)⌉ = 19 by norm_num]
          norm_num)
      (by norm_num [pythonRound])
      (by norm_num [pythonRound, pyTrunc, Int.ceil_eq_iff])
      (by decide)]
    rfl

/-! ### Claim C4 -/

/-- Projection of the step of a fit result, for stating C4. -/
def fittedStep : Except String RangePartitioner → Option ℚ
  | Except.ok p => p.step
  | Except.error _ => none

/-- Counterexample to C4 as stated: the step of
`ContinuousRangePartitioner(max_partitions=20)` fitted with explicit bounds
`(0, 100)` is not 5 (it is 10: `100/19 ≈ 5.26` rounds up to 10 in the
`{1, 2, 5} * 10 ^ k` series, the next element after 5). -/
theorem c4_counterexample :
    fittedStep (contFit boundedP [0, 50, 100] none none) ≠ some 5 := by
  rw [contFit_bounded_eval]
  rw [fittedStep]
  simp

/-- C4 amended: the fit yields step 10 (not 5), and the first/last partition
centres 0 and 100 bracket `[0, 100]`: 0 lies in the first interval
`[0 - 10/2, 0 + 10/2)` and 100 in the last interval `[100 - 10/2, 100 + 10/2)`. -/
theorem c4_amended :
    contFit boundedP [0, 50, 100] none none =
      Except.ok
        ⟨20, some 0, some 100, some 10, some 0, some 100, some 11,
          some [1, 0, 0, 0, 0, 1, 0, 0, 0, 0, 1]⟩ ∧
    ((0 : ℚ) - 10/2 ≤ 0 ∧ (0 : ℚ) < 0 + 10/2) ∧
    ((100 : ℚ) - 10/2 ≤ 100 ∧ (100 : ℚ) < 100 + 10/2) :=
  ⟨contFit_bounded_eval, by norm_num, by norm_num⟩

/-! ### Inversion of a successful fit -/

theorem fitWith_ok (stepSize : ℕ → ℚ → ℚ → Except String ℚ) (p : RangePartitioner)
    (values : List ℚ) (a b : Option ℚ) (q : RangePartitioner)
    (h : p.fitWith stepSize values a b = Except.ok q) :
    ∃ lb ub s, resolveBounds p.lower_bound p.upper_bound values = Except.ok (lb, ub) ∧
      stepSize p.max_partitions lb ub = Except.ok s ∧ q = p.applyFit values lb ub s := by
  rw [RangePartitioner.fitWith] at h
  cases hr : resolveBounds p.lower_bound p.upper_bound values with
  | error e => rw [hr] at h; simp at h
  | ok pair =>
    obtain ⟨lb, ub⟩ := pair
    rw [hr] at h
    dsimp only at h
    cases hs : stepSize p.max_partitions lb ub with
    | error e => rw [hs] at h; simp at h
    | ok s =>
      rw [hs] at h
      dsimp only at h
      injection h with h
      exact ⟨lb, ub, s, rfl, hs, h.symm⟩

theorem countFold_length (idxs : List ℤ) (n : ℤ) (acc : List ℕ) :
    (idxs.foldl
      (fun freqs idx =>
        if 0 ≤ idx ∧ idx < n then freqs.set idx.toNat (freqs.getD idx.toNat 0 + 1) else freqs)
      acc).length = acc.length := by
  induction idxs generalizing acc with
  | nil => rfl
  | cons i is ih =>
    rw [List.foldl_cons, ih]
    by_cases h : 0 ≤ i ∧ i < n
    · rw [if_pos h, List.length_set]
    · rw [if_neg h]

theorem applyFit_fields (p : RangePartitioner) (values : List ℚ) (lb ub s : ℚ) :
    (p.applyFit values lb ub s).max_partitions = p.max_partitions ∧
    (p.applyFit values lb ub s).n_partitions =
      some (pythonRound
        (((⌈(ub - s / 2) / s⌉ : ℚ) * s - (⌊(lb + s / 2) / s⌋ : ℚ) * s) / s) + 1) ∧
    (p.applyFit values lb ub s).is_fitted = true := by
  refine ⟨rfl, rfl, rfl⟩

theorem applyFit_lengths (p : RangePartitioner) (values : List ℚ) (lb ub s : ℚ) :
    Option.map List.length (p.applyFit values lb ub s).partitionsList =
      Option.map List.length (p.applyFit values lb ub s).frequencies := by
  simp only [RangePartitioner.applyFit, RangePartitioner.partitionsList]
  dsimp only [Option.map]
  rw [countFold_length, List.length_replicate]
  simp

/-! ### Claim C8 -/

/-- C8: for every variant, a successfully fitted partitioner has as many
partition centres as frequency entries. -/
theorem c8_parallel_lengths :
    (∀ (p : RangePartitioner) (values : List ℚ) (a b : Option ℚ) (q : RangePartitioner),
      contFit p values a b = Except.ok q →
      Option.map List.length q.partitionsList = Option.map List.length q.frequencies) ∧
    (∀ (p : RangePartitioner) (values : List ℚ) (a b : Option ℚ) (q : RangePartitioner),
      intFit p values a b = Except.ok q →
      Option.map List.length q.partitionsList = Option.map List.length q.frequencies) ∧
    (∀ (α : Type) (i : DecidableEq α) (c : CategoryPartitioner α) (values : List α),
      Option.map List.length (c.fit values).partitions =
        Option.map List.length (c.fit values).frequencies) := by
  refine ⟨?_, ?_, ?_⟩
  · intro p values a b q h
    obtain ⟨lb, ub, s, _, _, rfl⟩ := fitWith_ok continuousStepSize p values a b q h
    exact applyFit_lengths p values lb ub s
  · intro p values a b q h
    obtain ⟨lb, ub, s, _, _, rfl⟩ := fitWith_ok integerStepSize p values a b q h
    exact applyFit_lengths p values lb ub s
  · intro α i c values
    simp [CategoryPartitioner.fit]

/-! ### intFit evaluation for witnesses -/

theorem resolveBounds_both (lb ub : ℚ) (values : List ℚ) (h : ¬ ub < lb) :
    resolveBounds (some lb) (some ub) values = Except.ok (lb, ub) := by
  rw [resolveBounds, show resolveLower (some lb) values = Except.ok lb from rfl]
  dsimp only
  rw [if_neg h]

/-- The partitioner `IntegerRangePartitioner(max_partitions=20, lower_bound=0,
upper_bound=9)` before fitting. -/
def intBoundedP : RangePartitioner := ⟨20, some 0, some 9, none, none, none, none, none⟩

/-- Full evaluation of `IntegerRangePartitioner(20, 0, 9).fit([0, 9])`. -/
theorem intFit_bounded_eval :
    intFit intBoundedP [0, 9] none none =
      Except.ok
        ⟨20, some 0, some 9, some 1, some 0, some 9, some 10,
          some [1, 0, 0, 0, 0, 0, 0, 0, 0, 1]⟩ := by
  rw [intFit, RangePartitioner.fitWith,
    show intBoundedP.lower_bound = some 0 from rfl,
    show intBoundedP.upper_bound = some 9 from rfl,
    resolveBounds_both 0 9 [0, 9] (by norm_num)]
  dsimp only
  rw [show intBoundedP.max_partitions = 20 from rfl, intStep_0_9]
  dsimp only
  rw [applyFit_eval intBoundedP [0, 9] 0 9 1 0 9 10 [0, 9]
    [1, 0, 0, 0, 0, 0, 0, 0, 0, 1]
    (by norm_num)
    (by rw [show ((9 : ℚ) - 1/2)/1 = 17/2 by norm_num,
          show ⌈(17 : ℚ)/2⌉ = 9 by norm_num [Int.ceil_eq_iff]]
        norm_num)
    (by norm_num [pythonRound])
    (by norm_num [pythonRound, pyTrunc])
    (by decide)]
  rfl

/-- Witness for C8 at concrete fits: a continuous fit on `[0, 50, 100]`, an
integer fit on `[0, 9]`, and a categorical fit on `[1, 1, 2]`. -/
theorem c8_parallel_lengths_witness :
    (contFit boundedP [0, 50, 100] none none =
      Except.ok
        ⟨20, some 0, some 100, some 10, some 0, some 100, some 11,
          some [1, 0, 0, 0, 0, 1, 0, 0, 0, 0, 1]⟩ ∧
      Option.map List.length
          (RangePartitioner.partitionsList
            ⟨20, some 0, some 100, some 10, some 0, some 100, some 11,
              some [1, 0, 0, 0, 0, 1, 0, 0, 0, 0, 1]⟩) =
        Option.map List.length
          (RangePartitioner.frequencies
            ⟨20, some 0, some 100, some 10, some 0, some 100, some 11,
              some [1, 0, 0, 0, 0, 1, 0, 0, 0, 0, 1]⟩)) ∧
    (intFit intBoundedP [0, 9] none none =
      Except.ok
        ⟨20, some 0, some 9, some 1, some 0, some 9, some 10,
          some [1, 0, 0, 0, 0, 0, 0, 0, 0, 1]⟩ ∧
      Option.map List.length
          (RangePartitioner.partitionsList
            ⟨20, some 0, some 9, some 1, some 0, some 9, some 10,
              some [1, 0, 0, 0, 0, 0, 0, 0, 0, 1]⟩) =
        Option.map List.length
          (RangePartitioner.frequencies
            ⟨20, some 0, some 9, some 1, some 0, some 9, some 10,
              some [1, 0, 0, 0, 0, 0, 0, 0, 0, 1]⟩)) ∧
    Option.map List.length
        ((CategoryPartitioner.fit ⟨20, none, none⟩ [1, 1, 2]).partitions) =
      Option.map List.length
        ((CategoryPartitioner.fit (α := ℕ) ⟨20, none, none⟩ [1, 1, 2]).frequencies) :=
  ⟨⟨contFit_bounded_eval,
      c8_parallel_lengths.1 boundedP [0, 50, 100] none none _ contFit_bounded_eval⟩,
    ⟨intFit_bounded_eval,
      c8_parallel_lengths.2.1 intBoundedP [0, 9] none none _ intFit_bounded_eval⟩,
    c8_parallel_lengths.2.2 ℕ instDecidableEqNat ⟨20, none, none⟩ [1, 1, 2]⟩

/-! ### Claim C9 -/

/-- C9: after any categorical fit, the frequency sequence is non-increasing and
the partition values are pairwise distinct. -/
theorem c9_category_invariants (α : Type) (i : DecidableEq α) (c : CategoryPartitioner α)
    (values : List α) :
    List.Sorted (fun a b : ℕ => b ≤ a) (((c.fit values).frequencies).getD []) ∧
    (((c.fit values).partitions).getD []).Nodup := by
  constructor
  · show List.Sorted _ (((valueCounts values).map Prod.snd).take c.max_partitions)
    have h : List.Sorted countGE (valueCounts values) :=
      List.sorted_insertionSort countGE (values.dedup.map (fun v => (v, values.count v)))
    have h2 : List.Pairwise (fun a b : ℕ => b ≤ a) ((valueCounts values).map Prod.snd) :=
      List.Pairwise.map Prod.snd (fun a b hab => hab) h
    exact h2.sublist (List.take_sublist _ _)
  · show (((valueCounts values).map Prod.fst).take c.max_partitions).Nodup
    have hperm : List.Perm (valueCounts values)
        (values.dedup.map (fun v => (v, values.count v))) :=
      List.perm_insertionSort countGE _
    have hmap : List.Perm ((valueCounts values).map Prod.fst) values.dedup := by
      have h := hperm.map Prod.fst
      rw [List.map_map,
        show (Prod.fst ∘ fun v => (v, values.count v)) = (id : α → α) from rfl,
        List.map_id] at h
      exact h
    have hnd : ((valueCounts values).map Prod.fst).Nodup :=
      hmap.nodup_iff.mpr (List.nodup_dedup values)
    exact hnd.sublist (List.take_sublist _ _)

/-- Witness for C9 at a concrete categorical fit on `[4, 4, 5]`. -/
theorem c9_category_invariants_witness :
    List.Sorted (fun a b : ℕ => b ≤ a)
        (((CategoryPartitioner.fit (α := ℕ) ⟨2, none, none⟩ [4, 4, 5]).frequencies).getD []) ∧
    (((CategoryPartitioner.fit (α := ℕ) ⟨2, none, none⟩ [4, 4, 5]).partitions).getD []).Nodup :=
  c9_category_invariants ℕ instDecidableEqNat ⟨2, none, none⟩ [4, 4, 5]

/-! ### Claim C10 -/

/-- C10: fresh partitioners of every family report `is_fitted() = False`, a
fresh `CategoryPartitioner` reports `None` for both `partitions()` and
`frequencies()`, and every successful fit flips `is_fitted()` to `True`. -/
theorem c10_unfitted_then_fitted :
    (∀ (m : Option ℕ) (lb ub : Option ℚ) (p : RangePartitioner),
        mkRangePartitioner m lb ub = Except.ok p → p.is_fitted = false) ∧
    (∀ (α : Type) (m : ℕ) (c : CategoryPartitioner α),
        mkCategoryPartitioner α m = Except.ok c →
        c.is_fitted = false ∧ c.partitions = none ∧ c.frequencies = none) ∧
    (∀ (p : RangePartitioner) (values : List ℚ) (a b : Option ℚ) (q : RangePartitioner),
        contFit p values a b = Except.ok q → q.is_fitted = true) ∧
    (∀ (p : RangePartitioner) (values : List ℚ) (a b : Option ℚ) (q : RangePartitioner),
        intFit p values a b = Except.ok q → q.is_fitted = true) ∧
    (∀ (α : Type) (i : DecidableEq α) (c : CategoryPartitioner α) (values : List α),
        (c.fit values).is_fitted = true) := by
  refine ⟨?_, ?_, ?_, ?_, ?_⟩
  · intro m lb ub p h
    rw [mkRangePartitioner.eq_def] at h
    dsimp only at h
    repeat' split at h
    all_goals cases h
    all_goals rfl
  · intro α m c h
    rw [mkCategoryPartitioner] at h
    split at h
    · simp at h
    · injection h with h
      rw [← h]
      exact ⟨rfl, rfl, rfl⟩
  · intro p values a b q h
    obtain ⟨lb, ub, s, _, _, rfl⟩ := fitWith_ok continuousStepSize p values a b q h
    rfl
  · intro p values a b q h
    obtain ⟨lb, ub, s, _, _, rfl⟩ := fitWith_ok integerStepSize p values a b q h
    rfl
  · intro α i c values
    rfl

theorem mkRange_five :
    mkRangePartitioner (some 5) none none =
      Except.ok ⟨5, none, none, none, none, none, none, none⟩ := rfl

theorem mkCat_three : mkCategoryPartitioner ℕ 3 = Except.ok ⟨3, none, none⟩ := rfl

/-- Witness for C10 at concrete instances: a freshly constructed range
partitioner and category partitioner, then successful fits of all three
variants. -/
theorem c10_unfitted_then_fitted_witness :
    (mkRangePartitioner (some 5) none none =
        Except.ok ⟨5, none, none, none, none, none, none, none⟩ ∧
      RangePartitioner.is_fitted ⟨5, none, none, none, none, none, none, none⟩ = false) ∧
    (mkCategoryPartitioner ℕ 3 = Except.ok ⟨3, none, none⟩ ∧
      CategoryPartitioner.is_fitted (α := ℕ) ⟨3, none, none⟩ = false ∧
      (⟨3, none, none⟩ : CategoryPartitioner ℕ).partitions = none ∧
      (⟨3, none, none⟩ : CategoryPartitioner ℕ).frequencies = none) ∧
    (contFit boundedP [0, 50, 100] none none =
        Except.ok
          ⟨20, some 0, some 100, some 10, some 0, some 100, some 11,
            some [1, 0, 0, 0, 0, 1, 0, 0, 0, 0, 1]⟩ ∧
      RangePartitioner.is_fitted
          ⟨20, some 0, some 100, some 10, some 0, some 100, some 11,
            some [1, 0, 0, 0, 0, 1, 0, 0, 0, 0, 1]⟩ = true) ∧
    (intFit intBoundedP [0, 9] none none =
        Except.ok
          ⟨20, some 0, some 9, some 1, some 0, some 9, some 10,
            some [1, 0, 0, 0, 0, 0, 0, 0, 0, 1]⟩ ∧
      RangePartitioner.is_fitted
          ⟨20, some 0, some 9, some 1, some 0, some 9, some 10,
            some [1, 0, 0, 0, 0, 0, 0, 0, 0, 1]⟩ = true) ∧
    (CategoryPartitioner.fit (α := ℕ) ⟨3, none, none⟩ [7, 7, 8]).is_fitted = true :=
  ⟨⟨mkRange_five, c10_unfitted_then_fitted.1 (some 5) none none _ mkRange_five⟩,
    ⟨mkCat_three, c10_unfitted_then_fitted.2.1 ℕ 3 _ mkCat_three⟩,
    ⟨contFit_bounded_eval,
      c10_unfitted_then_fitted.2.2.1 boundedP [0, 50, 100] none none _ contFit_bounded_eval⟩,
    ⟨intFit_bounded_eval,
      c10_unfitted_then_fitted.2.2.2.1 intBoundedP [0, 9] none none _ intFit_bounded_eval⟩,
    c10_unfitted_then_fitted.2.2.2.2 ℕ instDecidableEqNat ⟨3, none, none⟩ [7, 7, 8]⟩

/-! ### Claim C7: lemma stack -/

theorem resolveBounds_le (cl cu : Option ℚ) (values : List ℚ) (lb ub : ℚ)
    (h : resolveBounds cl cu values = Except.ok (lb, ub)) : lb ≤ ub := by
  rw [resolveBounds] at h
  repeat' split at h
  all_goals cases h
  all_goals first
    | exact le_refl _
    | exact le_of_not_lt (by assumption)

theorem stepInput_facts (mp : ℕ) (lb ub : ℚ) (hlb : lb ≤ ub)
    (hpos : 0 < (ub - lb) / ((mp : ℚ) - 1)) :
    2 ≤ mp ∧ 0 < (mp : ℚ) - 1 ∧ lb < ub := by
  rcases lt_trichotomy ((mp : ℚ) - 1) 0 with hd | hd | hd
  · exfalso
    have hnp : (ub - lb) / ((mp : ℚ) - 1) ≤ 0 :=
      div_nonpos_iff.mpr (Or.inl ⟨sub_nonneg.mpr hlb, le_of_lt hd⟩)
    linarith
  · exfalso
    rw [hd, div_zero] at hpos
    exact lt_irrefl 0 hpos
  · have hmp : (1 : ℚ) < (mp : ℚ) := by linarith
    have h2 : 1 < mp := by exact_mod_cast hmp
    have hlt : lb < ub := by
      by_contra hc
      push_neg at hc
      have hle : ub - lb ≤ 0 := sub_nonpos.mpr hc
      have hnp : (ub - lb) / ((mp : ℚ) - 1) ≤ 0 :=
        div_nonpos_iff.mpr (Or.inr ⟨hle, le_of_lt hd⟩)
      linarith
    exact ⟨h2, hd, hlt⟩

theorem contStep_facts (mp : ℕ) (lb ub s : ℚ) (hlb : lb ≤ ub)
    (h : continuousStepSize mp lb ub = Except.ok s) :
    0 < s ∧ lb < ub ∧ 2 ≤ mp ∧ ub - lb ≤ s * ((mp : ℚ) - 1) := by
  rw [continuousStepSize, ceil_step] at h
  split at h
  · cases h
  · cases h
    rename_i hns
    have hpos : 0 < (ub - lb) / ((mp : ℚ) - 1) := lt_of_not_le hns
    obtain ⟨hmp, hd, hlt⟩ := stepInput_facts mp lb ub hlb hpos
    refine ⟨csVal_pos _ hpos, hlt, hmp, ?_⟩
    have hx := le_csVal ((ub - lb) / ((mp : ℚ) - 1))
    have hmul := mul_le_mul_of_nonneg_right hx (le_of_lt hd)
    rw [div_mul_cancel₀ _ (ne_of_gt hd)] at hmul
    exact hmul

theorem zpow_ten_int (k : ℤ) (hk : 0 ≤ k) : (10 : ℚ) ^ k = ((10 ^ k.toNat : ℤ) : ℚ) := by
  conv_lhs => rw [← Int.toNat_of_nonneg hk]
  rw [zpow_natCast]
  push_cast
  ring

theorem csCand_int (s m : ℚ) (hm : m = 1 ∨ m = 2 ∨ m = 5) (h1 : 1 ≤ csCand s m) :
    ∃ z : ℤ, csCand s m = (z : ℚ) := by
  rcases hm with rfl | rfl | rfl
  · rw [csCand, div_one] at h1 ⊢
    have hk0 : 0 ≤ Int.clog 10 (s * 1) := by
      by_contra hneg
      push_neg at hneg
      have hlt : (10 : ℚ) ^ Int.clog 10 (s * 1) < 1 :=
        zpow_lt_one_of_neg₀ (by norm_num) hneg
      linarith
    exact ⟨10 ^ (Int.clog 10 (s * 1)).toNat, zpow_ten_int _ hk0⟩
  · rw [csCand] at h1 ⊢
    have hk1 : 1 ≤ Int.clog 10 (s * 2) := by
      by_contra hneg
      push_neg at hneg
      have hk0 : Int.clog 10 (s * 2) ≤ 0 := by omega
      have hle : (10 : ℚ) ^ Int.clog 10 (s * 2) ≤ (10 : ℚ) ^ (0 : ℤ) :=
        zpow_le_zpow_right₀ (by norm_num) hk0
      rw [zpow_zero] at hle
      rw [le_div_iff₀ (by norm_num : (0 : ℚ) < 2)] at h1
      linarith
    refine ⟨5 * 10 ^ (Int.clog 10 (s * 2) - 1).toNat, ?_⟩
    have hk0 : (0 : ℤ) ≤ Int.clog 10 (s * 2) - 1 := by omega
    push_cast
    rw [← zpow_natCast (10 : ℚ) (Int.clog 10 (s * 2) - 1).toNat, Int.toNat_of_nonneg hk0,
      zpow_sub_one₀ (by norm_num : (10 : ℚ) ≠ 0)]
    ring
  · rw [csCand] at h1 ⊢
    have hk1 : 1 ≤ Int.clog 10 (s * 5) := by
      by_contra hneg
      push_neg at hneg
      have hk0 : Int.clog 10 (s * 5) ≤ 0 := by omega
      have hle : (10 : ℚ) ^ Int.clog 10 (s * 5) ≤ (10 : ℚ) ^ (0 : ℤ) :=
        zpow_le_zpow_right₀ (by norm_num) hk0
      rw [zpow_zero] at hle
      rw [le_div_iff₀ (by norm_num : (0 : ℚ) < 5)] at h1
      linarith
    refine ⟨2 * 10 ^ (Int.clog 10 (s * 5) - 1).toNat, ?_⟩
    have hk0 : (0 : ℤ) ≤ Int.clog 10 (s * 5) - 1 := by omega
    push_cast
    rw [← zpow_natCast (10 : ℚ) (Int.clog 10 (s * 5) - 1).toNat, Int.toNat_of_nonneg hk0,
      zpow_sub_one₀ (by norm_num : (10 : ℚ) ≠ 0)]
    ring

theorem csVal_int_of_one_le (s : ℚ) (h : 1 ≤ csVal s) : ∃ z : ℤ, csVal s = (z : ℚ) := by
  rw [csVal] at h ⊢
  rcases min_cases (csCand s 1) (min (csCand s 2) (csCand s 5)) with h1 | h1
  · rw [h1.1] at h ⊢
    exact csCand_int s 1 (Or.inl rfl) h
  · rw [h1.1] at h ⊢
    rcases min_cases (csCand s 2) (csCand s 5) with h2 | h2
    · rw [h2.1] at h ⊢
      exact csCand_int s 2 (Or.inr (Or.inl rfl)) h
    · rw [h2.1] at h ⊢
      exact csCand_int s 5 (Or.inr (Or.inr rfl)) h

theorem intStep_facts (mp : ℕ) (lb ub s : ℚ) (hlb : lb ≤ ub)
    (h : integerStepSize mp lb ub = Except.ok s) :
    0 < s ∧ lb < ub ∧ 2 ≤ mp ∧ ub - lb ≤ s * ((mp : ℚ) - 1) := by
  rw [integerStepSize] at h
  split at h
  · cases h
  · cases h
    rename_i c heq
    rw [ceil_step] at heq
    split at heq
    · cases heq
    · cases heq
      rename_i hns
      have hpos : 0 < (ub - lb) / ((mp : ℚ) - 1) := lt_of_not_le hns
      obtain ⟨hmp, hd, hlt⟩ := stepInput_facts mp lb ub hlb hpos
      have hs1 : (1 : ℚ) ≤ max 1 ((pyTrunc (csVal ((ub - lb) / ((mp : ℚ) - 1))) : ℤ) : ℚ) :=
        le_max_left _ _
      have hxle : (ub - lb) / ((mp : ℚ) - 1) ≤
          max 1 ((pyTrunc (csVal ((ub - lb) / ((mp : ℚ) - 1))) : ℤ) : ℚ) := by
        set x := (ub - lb) / ((mp : ℚ) - 1) with hxdef
        by_cases hc : csVal x < 1
        · have hx1 : x < 1 := lt_of_le_of_lt (le_csVal x) hc
          exact le_trans (le_of_lt hx1) hs1
        · push_neg at hc
          obtain ⟨z, hz⟩ := csVal_int_of_one_le x hc
          have hz1 : (1 : ℤ) ≤ z := by
            rw [hz] at hc
            exact_mod_cast hc
          have htr : pyTrunc (csVal x) = z := by
            rw [hz, pyTrunc, if_pos (by exact_mod_cast le_trans zero_le_one hz1),
              Int.floor_intCast]
          rw [htr, max_eq_right (by exact_mod_cast hz1)]
          rw [← hz]
          exact le_csVal x
      refine ⟨lt_of_lt_of_le one_pos hs1, hlt, hmp, ?_⟩
      have hmul := mul_le_mul_of_nonneg_right hxle (le_of_lt hd)
      rw [div_mul_cancel₀ _ (ne_of_gt hd)] at hmul
      exact hmul

theorem applyFit_n_bounds (p : RangePartitioner) (values : List ℚ) (lb ub s : ℚ)
    (hs : 0 < s) (hlt : lb < ub) (hcov : ub - lb ≤ s * ((p.max_partitions : ℚ) - 1)) :
    ∃ n : ℤ, (p.applyFit values lb ub s).n_partitions = some n ∧
      1 ≤ n ∧ n ≤ (p.max_partitions : ℤ) := by
  have hsne : s ≠ 0 := ne_of_gt hs
  have hdiv : (((⌈(ub - s / 2) / s⌉ : ℚ)) * s - ((⌊(lb + s / 2) / s⌋ : ℚ)) * s) / s =
      ((⌈(ub - s / 2) / s⌉ - ⌊(lb + s / 2) / s⌋ : ℤ) : ℚ) := by
    push_cast
    rw [div_eq_iff hsne]
    ring
  refine ⟨⌈(ub - s / 2) / s⌉ - ⌊(lb + s / 2) / s⌋ + 1, ?_, ?_, ?_⟩
  · show some (pythonRound
        ((((⌈(ub - s / 2) / s⌉ : ℚ)) * s - ((⌊(lb + s / 2) / s⌋ : ℚ)) * s) / s) + 1) = _
    rw [hdiv, pythonRound_intCast]
  · have h1 : ((⌊(lb + s / 2) / s⌋ : ℚ)) ≤ (lb + s / 2) / s := Int.floor_le _
    have h2 : (ub - s / 2) / s ≤ ((⌈(ub - s / 2) / s⌉ : ℚ)) := Int.le_ceil _
    by_contra hc
    push_neg at hc
    have hAB : ⌈(ub - s / 2) / s⌉ + 1 ≤ ⌊(lb + s / 2) / s⌋ := by omega
    have hABq : ((⌈(ub - s / 2) / s⌉ : ℚ)) + 1 ≤ ((⌊(lb + s / 2) / s⌋ : ℚ)) := by
      exact_mod_cast hAB
    have hub : (ub - s / 2) / s + 1 ≤ (lb + s / 2) / s := by linarith
    have hmul := mul_le_mul_of_nonneg_right hub (le_of_lt hs)
    rw [add_mul, one_mul, div_mul_cancel₀ _ hsne, div_mul_cancel₀ _ hsne] at hmul
    linarith
  · have h3 : ((⌈(ub - s / 2) / s⌉ : ℚ)) < (ub - s / 2) / s + 1 := Int.ceil_lt_add_one _
    have h4 : (lb + s / 2) / s - 1 < ((⌊(lb + s / 2) / s⌋ : ℚ)) := Int.sub_one_lt_floor _
    have hub2 : (ub - lb) / s ≤ (p.max_partitions : ℚ) - 1 := by
      rw [div_le_iff₀ hs]
      linarith [hcov]
    have hdiff : (ub - s / 2) / s - (lb + s / 2) / s = (ub - lb) / s - 1 := by
      field_simp
      ring
    have hA2 : ((⌈(ub - s / 2) / s⌉ : ℚ)) - ((⌊(lb + s / 2) / s⌋ : ℚ)) <
        (p.max_partitions : ℚ) := by linarith
    have hA3 : ⌈(ub - s / 2) / s⌉ - ⌊(lb + s / 2) / s⌋ < (p.max_partitions : ℤ) := by
      exact_mod_cast hA2
    omega

/-- C7: for every variant and every successful fit, the number of partitions
produced is at most `max_partitions`. -/
theorem c7_length_le_max :
    (∀ (p : RangePartitioner) (values : List ℚ) (a b : Option ℚ) (q : RangePartitioner)
        (n : ℤ), contFit p values a b = Except.ok q → q.length = some n →
        n ≤ (p.max_partitions : ℤ)) ∧
    (∀ (p : RangePartitioner) (values : List ℚ) (a b : Option ℚ) (q : RangePartitioner)
        (n : ℤ), intFit p values a b = Except.ok q → q.length = some n →
        n ≤ (p.max_partitions : ℤ)) ∧
    (∀ (α : Type) (i : DecidableEq α) (c : CategoryPartitioner α) (values : List α),
        (c.fit values).length ≤ c.max_partitions) := by
  refine ⟨?_, ?_, ?_⟩
  · intro p values a b q n h hn
    obtain ⟨lb, ub, s, hres, hstep, rfl⟩ := fitWith_ok continuousStepSize p values a b q h
    have hlb := resolveBounds_le p.lower_bound p.upper_bound values lb ub hres
    obtain ⟨hs, hlt, hmp, hcov⟩ := contStep_facts p.max_partitions lb ub s hlb hstep
    obtain ⟨m, hm, h1, h2⟩ := applyFit_n_bounds p values lb ub s hs hlt hcov
    rw [RangePartitioner.length, hm] at hn
    injection hn with hn
    omega
  · intro p values a b q n h hn
    obtain ⟨lb, ub, s, hres, hstep, rfl⟩ := fitWith_ok integerStepSize p values a b q h
    have hlb := resolveBounds_le p.lower_bound p.upper_bound values lb ub hres
    obtain ⟨hs, hlt, hmp, hcov⟩ := intStep_facts p.max_partitions lb ub s hlb hstep
    obtain ⟨m, hm, h1, h2⟩ := applyFit_n_bounds p values lb ub s hs hlt hcov
    rw [RangePartitioner.length, hm] at hn
    injection hn with hn
    omega
  · intro α i c values
    show (((valueCounts values).map Prod.fst).take c.max_partitions).length ≤
      c.max_partitions
    rw [List.length_take]
    exact min_le_left _ _

/-- Witness for C7: the three variants at concrete successful fits — continuous
on `[0, 50, 100]` with bounds `(0, 100)` produces 11 ≤ 20 partitions, integer on
`[0, 9]` with bounds `(0, 9)` produces 10 ≤ 20, and a category partitioner with
`max_partitions = 3` on `[7, 7, 8]` produces at most 3. -/
theorem c7_length_le_max_witness :
    (contFit boundedP [0, 50, 100] none none =
        Except.ok
          ⟨20, some 0, some 100, some 10, some 0, some 100, some 11,
            some [1, 0, 0, 0, 0, 1, 0, 0, 0, 0, 1]⟩ ∧
      RangePartitioner.length
          ⟨20, some 0, some 100, some 10, some 0, some 100, some 11,
            some [1, 0, 0, 0, 0, 1, 0, 0, 0, 0, 1]⟩ = some 11 ∧
      (11 : ℤ) ≤ (boundedP.max_partitions : ℤ)) ∧
    (intFit intBoundedP [0, 9] none none =
        Except.ok
          ⟨20, some 0, some 9, some 1, some 0, some 9, some 10,
            some [1, 0, 0, 0, 0, 0, 0, 0, 0, 1]⟩ ∧
      RangePartitioner.length
          ⟨20, some 0, some 9, some 1, some 0, some 9, some 10,
            some [1, 0, 0, 0, 0, 0, 0, 0, 0, 1]⟩ = some 10 ∧
      (10 : ℤ) ≤ (intBoundedP.max_partitions : ℤ)) ∧
    (CategoryPartitioner.fit (α := ℕ) ⟨3, none, none⟩ [7, 7, 8]).length ≤ 3 :=
  ⟨⟨contFit_bounded_eval, rfl,
      c7_length_le_max.1 boundedP [0, 50, 100] none none _ 11 contFit_bounded_eval rfl⟩,
    ⟨intFit_bounded_eval, rfl,
      c7_length_le_max.2.1 intBoundedP [0, 9] none none _ 10 intFit_bounded_eval rfl⟩,
    c7_length_le_max.2.2 ℕ instDecidableEqNat ⟨3, none, none⟩ [7, 7, 8]⟩

end YieldEngine
